import Mathlib

/-!
Verification of the `dm_app` employee-management application.

A shallow embedding of `src/app.py` (a Flask + sqlite3 sample application
maintaining a single `employees` table) together with proofs about its
validation pipeline, its referential-integrity invariants and its
result-code rendering.

The embedding follows the Python source closely:

* the `employees` table is a list of `Employee` records (`Table`);
* each mutating route handler (`employee_add_execute`,
  `employee_del_execute`, `employee_edit_update`) becomes a pure function
  from the current table and the raw request strings to the redirect it
  issues together with the table after the request; a `Bool` parameter
  `dbFail` models the storage engine raising `sqlite3.Error` on the
  mutating statement (in which case nothing is committed);
* Python's built-in `int(...)` conversion becomes `pyInt`;
* `unicodedata.category c == 'Cc'` becomes `isCc` (the Unicode `Cc`
  general category is exactly U+0000..U+001F together with U+007F..U+009F);
* SQLite's default `LIKE` operator (used by the filtered listing) becomes
  `sqlLike`, per its documented semantics: `%` matches any sequence of
  characters, `_` matches any single character, and comparison of other
  characters is case-insensitive for the ASCII letters.
-/

/-- A digit character `0`..`9`, as accepted by Python `int`. -/
def isPyDigit (c : Char) : Bool := 48 ≤ c.toNat && c.toNat ≤ 57

/-- The ASCII whitespace characters stripped by Python `int` before parsing. -/
def isPySpace (c : Char) : Bool :=
  c == ' ' || c == '\t' || c == '\n' || c == '\r' ||
  c == Char.ofNat 11 || c == Char.ofNat 12

/-- A run of digits in which single underscores may separate digits
(Python `int` accepts `1_000` but rejects `_1`, `1_`, `1__0`).
The first character is required to be a digit by `pyIntBody`. -/
def pyDigitRun : List Char → Option (List Char)
  | [] => some []
  | '_' :: c :: cs =>
    if isPyDigit c then pyDigitRun (c :: cs) else none
  | ['_'] => none
  | c :: cs =>
    if isPyDigit c then (pyDigitRun cs).map (fun ds => c :: ds) else none

/-- Numeric value of a digit run. -/
def digitsToNat (ds : List Char) : Nat :=
  ds.foldl (fun a c => a * 10 + (c.toNat - 48)) 0

/-- Digits (with optional separating underscores) starting with a digit. -/
def pyIntBody (cs : List Char) : Option Nat :=
  match cs with
  | [] => none
  | c :: _ =>
    if isPyDigit c then (pyDigitRun cs).map digitsToNat else none

/-- An optionally signed digit run. -/
def pyIntSigned : List Char → Option Int
  | '+' :: cs => (pyIntBody cs).map (fun n => (n : Int))
  | '-' :: cs => (pyIntBody cs).map (fun n => -(n : Int))
  | cs => (pyIntBody cs).map (fun n => (n : Int))

/-- Python's built-in `int : str -> int` conversion, restricted to ASCII
digits: surrounding whitespace is stripped, then an optional sign is
followed by a non-empty underscore-separated digit run.  `none` models
`int(...)` raising `ValueError`. -/
def pyInt (s : String) : Option Int :=
  pyIntSigned (((s.data.dropWhile isPySpace).reverse.dropWhile isPySpace).reverse)

/-- Membership of a code point in the Unicode general category `Cc`
(`unicodedata.category c == 'Cc'` in Python): the C0 controls
U+0000..U+001F and U+007F together with the C1 controls U+0080..U+009F. -/
def isCc (c : Char) : Bool := c.toNat ≤ 0x1F || (0x7F ≤ c.toNat && c.toNat ≤ 0x9F)

/-- The function `has_control_character` from `app.py`, which computes
`any` of `unicodedata.category c == Cc` over the characters of `s`. -/
def has_control_character (s : String) : Bool := s.data.any isCc

/-- One row of the `employees` table. -/
structure Employee where
  id : Int
  name : String
  salary : Int
  manager_id : Int
  birth_year : Int
  start_year : Int
deriving DecidableEq

/-- The `employees` table. -/
abbrev Table := List Employee

/-- Existence test: the query `SELECT id FROM employees WHERE id = ?`
followed by `fetchone()` is not `None` exactly when some row carries the id. -/
def containsId (t : Table) (i : Int) : Bool := t.any (fun e => e.id == i)

/-- A redirect issued by a mutating route: the results endpoint it targets
(`employee_add_results`, `employee_del_results` or `employee_edit_results`)
together with the result code placed in the URL. -/
inductive Redirect where
  | addResults (code : String)
  | delResults (code : String)
  | editResults (code : String)
deriving DecidableEq

/-- The result code carried by a redirect, independent of its target. -/
def Redirect.code : Redirect → String
  | .addResults c => c
  | .delResults c => c
  | .editResults c => c

/-- The raw `POST` parameters of the add form. -/
structure AddForm where
  id : String
  name : String
  salary : String
  manager_id : String
  birth_year : String
  start_year : String
deriving DecidableEq

/-- The raw `POST` parameters of the edit form (the id travels in the URL). -/
structure EditForm where
  name : String
  salary : String
  manager_id : String
  birth_year : String
  start_year : String
deriving DecidableEq

/-- The handler `employee_add_execute` from `app.py` (`POST /employee-add`): the checks
in source order, each failure redirecting immediately, then the `INSERT`.
`dbFail` models `cur.execute(INSERT ...)` raising `sqlite3.Error`, in which
case nothing is committed. -/
def employee_add_execute (dbFail : Bool) (t : Table) (f : AddForm) :
    Redirect × Table :=
  match pyInt f.id with
  | none => (.addResults "id-has-invalid-charactor", t)
  | some id =>
    if containsId t id then
      (.addResults "id-already-exists", t)
    else
      match pyInt f.manager_id with
      | none => (.addResults "manager-id-has-invalid-charactor", t)
      | some manager_id =>
        if id ≠ manager_id && !containsId t manager_id then
          (.addResults "manager-id-does-not-exist", t)
        else
          match pyInt f.salary with
          | none => (.addResults "salary-has-invalid-charactor", t)
          | some salary =>
            match pyInt f.birth_year with
            | none => (.addResults "birth-year-has-invalid-charactor", t)
            | some birth_year =>
              match pyInt f.start_year with
              | none => (.addResults "start-year-has-invalid-charactor", t)
              | some start_year =>
                if has_control_character f.name then
                  (.addResults "name-has-control-charactor", t)
                else if dbFail then
                  (.addResults "database-error", t)
                else
                  (.addResults "added",
                   t ++ [⟨id, f.name, salary, manager_id,
                          birth_year, start_year⟩])

/-- The handler `employee_del_execute` from `app.py` (`POST /employee-del/<id>`).
Note the two quirks present in the source: the missing-record code is
spelled `id-does-not-exsit` (line 498), and both the `database-error`
redirect (line 517) and the success redirect (line 523) target
`employee_add_results` rather than `employee_del_results`. -/
def employee_del_execute (dbFail : Bool) (t : Table) (idStr : String) :
    Redirect × Table :=
  match pyInt idStr with
  | none => (.delResults "id-has-invalid-charactor", t)
  | some id_num =>
    if !containsId t id_num then
      (.delResults "id-does-not-exsit", t)
    else if t.any (fun e => e.manager_id == id_num && e.id != id_num) then
      (.delResults "id-is-manager", t)
    else if dbFail then
      (.addResults "database-error", t)
    else
      (.addResults "deleted", t.filter (fun e => e.id != id_num))

/-- The handler `employee_edit_update` from `app.py` (`POST /employee-edit/<id>`):
id parse and existence checks, then the same manager / salary / birth-year /
start-year / name checks as the add path, then the `UPDATE` of every row
whose id matches (ids are unique in valid tables). -/
def employee_edit_update (dbFail : Bool) (t : Table) (idStr : String)
    (f : EditForm) : Redirect × Table :=
  match pyInt idStr with
  | none => (.editResults "id-has-invalid-charactor", t)
  | some id_num =>
    if !containsId t id_num then
      (.editResults "id-does-not-exist", t)
    else
      match pyInt f.manager_id with
      | none => (.editResults "manager-id-has-invalid-charactor", t)
      | some manager_id =>
        if id_num ≠ manager_id && !containsId t manager_id then
          (.editResults "manager-id-does-not-exist", t)
        else
          match pyInt f.salary with
          | none => (.editResults "salary-has-invalid-charactor", t)
          | some salary =>
            match pyInt f.birth_year with
            | none => (.editResults "birth-year-has-invalid-charactor", t)
            | some birth_year =>
              match pyInt f.start_year with
              | none => (.editResults "start-year-has-invalid-charactor", t)
              | some start_year =>
                if has_control_character f.name then
                  (.editResults "name-has-control-charactor", t)
                else if dbFail then
                  (.editResults "database-error", t)
                else
                  (.editResults "updated",
                   t.map (fun e =>
                     if e.id == id_num then
                       { e with name := f.name, salary := salary,
                                manager_id := manager_id,
                                birth_year := birth_year,
                                start_year := start_year }
                     else e))

/-- The table `RESULT_MESSAGES` from `app.py`: result codes paired with their
user-facing messages, in source order. -/
def RESULT_MESSAGES : List (String × String) := [
  ("id-has-invalid-charactor",
   "指定された社員番号には使えない文字があります - 数字のみで指定してください"),
  ("id-already-exists",
   "指定された社員番号は既に存在します - 存在しない社員番号を指定してください"),
  ("id-does-not-exist",
   "指定された社員番号は存在しません"),
  ("id-is-manager",
   "指定された社員番号の社員には部下がいます - 部下に登録された上司を変更してから削除してください"),
  ("manager-id-has-invalid-charactor",
   "指定された上司の社員番号には使えない文字があります - 数字のみで指定してください"),
  ("manager-id-does-not-exist",
   "指定された上司の社員番号が存在しません - 既に存在する社員番号か追加する社員の社員番号と同じものを指定してください"),
  ("salary-has-invalid-charactor",
   "指定された給与には使えない文字があります - 数字のみで指定してください"),
  ("birth-year-has-invalid-charactor",
   "指定された生年には使えない文字があります - 数字のみで指定してください"),
  ("start-year-has-invalid-charactor",
   "指定された入社年には使えない文字があります - 数字のみで指定してください"),
  ("name-has-control-charactor",
   "指定された名前には制御文字があります - 制御文字は指定しないでください"),
  ("database-error",
   "データベースエラー"),
  ("added",
   "社員を追加しました"),
  ("deleted",
   "削除しました"),
  ("updated",
   "更新しました")
]

/-- The lookup `RESULT_MESSAGES.get` with default `code error`, from `app.py`. -/
def resultLookup (code : String) : String :=
  ((RESULT_MESSAGES.find? (fun p => p.1 == code)).map Prod.snd).getD "code error"

/-- The renderer `employee_add_results` (`GET /employee-add-results/<code>`): the template
rendered and the message passed to it. -/
def employee_add_results (code : String) : String × String :=
  ("employee-add-results.html", resultLookup code)

/-- The renderer `employee_del_results` (`GET /employee-del-results/<code>`). -/
def employee_del_results (code : String) : String × String :=
  ("employee-del-results.html", resultLookup code)

/-- The renderer `employee_edit_results` (`GET /employee-edit-results/<code>`). -/
def employee_edit_results (code : String) : String × String :=
  ("employee-edit-results.html", resultLookup code)

/-- Lower-casing of the ASCII letters only, as performed by SQLite's
default `LIKE` comparison; all other characters are untouched. -/
def asciiLower (c : Char) : Char :=
  if 65 ≤ c.toNat && c.toNat ≤ 90 then Char.ofNat (c.toNat + 32) else c

/-- Here `anySuffix g s` holds when `g` holds of some suffix of `s`
(including `s` itself and the empty suffix). -/
def anySuffix (g : List Char → Bool) : List Char → Bool
  | [] => g []
  | c :: cs => g (c :: cs) || anySuffix g cs

/-- SQLite's default `LIKE` pattern match (documented semantics of the
built-in `like()` function): `%` matches any sequence of zero or more
characters, `_` matches exactly one character, and any other pattern
character matches a single character equal to it up to ASCII case. -/
def likeMatch : List Char → List Char → Bool
  | [], s => s.isEmpty
  | p :: ps, s =>
    if p = '%' then anySuffix (likeMatch ps) s
    else
      match s with
      | [] => false
      | c :: cs =>
        if p = '_' then likeMatch ps cs
        else asciiLower p == asciiLower c && likeMatch ps cs

/-- The comparison `name LIKE ?` with the bound parameter `pattern`. -/
def sqlLike (pattern s : String) : Bool := likeMatch pattern.data s.data

/-- The handler `employees_filtered` from `app.py` (`POST /employees`):
`SELECT id, name FROM employees WHERE name LIKE ?` with the raw
`name_filter` form value bound, returning the `(id, name)` pairs. -/
def employees_filtered (t : Table) (name_filter : String) :
    List (Int × String) :=
  (t.filter (fun e => sqlLike name_filter e.name)).map (fun e => (e.id, e.name))

/-- The invariants of a well-formed `employees` table: ids are unique,
every `manager_id` is the record's own id or the id of an existing record,
and no name contains a `Cc` control character. -/
def validTable (t : Table) : Prop :=
  (t.map Employee.id).Nodup ∧
  (∀ e ∈ t, e.manager_id = e.id ∨ containsId t e.manager_id = true) ∧
  (∀ e ∈ t, has_control_character e.name = false)

instance (t : Table) : Decidable (validTable t) := by
  unfold validTable; infer_instance

/-- A mutating request: the `dbFail` flag models the storage engine failing
on the mutating statement of that request. -/
inductive Op where
  | add : Bool → AddForm → Op
  | edit : Bool → String → EditForm → Op
  | del : Bool → String → Op

/-- Dispatch one request against the table. -/
def applyOp (t : Table) : Op → Redirect × Table
  | .add d f => employee_add_execute d t f
  | .edit d i f => employee_edit_update d t i f
  | .del d i => employee_del_execute d t i

/-- The table after a sequence of requests. -/
def runOps (t : Table) (ops : List Op) : Table :=
  ops.foldl (fun t op => (applyOp t op).2) t

/-! ## Theorems -/

/-- Claim C4 (code bug). On a Delete request whose id parses but matches no
record, the source redirects with the code `id-does-not-exsit` (line 498), a
misspelling that is not a key of `RESULT_MESSAGES`; the intended key
`id-does-not-exist` is in the map, so this failure path renders the generic
`code error` message instead of the mapped one, contradicting both the
spec's step "Record must exist → else `id-does-not-exist`" and the map
itself. Evaluated here at the failing input: `POST /employee-del/42`
against the empty table. -/
theorem del_missing_id_misspelled_code :
    (employee_del_execute false [] "42").1 = Redirect.delResults "id-does-not-exsit" ∧
    ((RESULT_MESSAGES.map Prod.fst).contains "id-does-not-exsit" = false) ∧
    ((RESULT_MESSAGES.map Prod.fst).contains "id-does-not-exist" = true) ∧
    (employee_del_results "id-does-not-exsit").2 = "code error" ∧
    (employee_del_results "id-does-not-exist").2 = "指定された社員番号は存在しません" := by
  decide

/-- Claim C9 (code bug). The Delete POST handler's success and storage-failure
redirects target `employee_add_results` (source lines 517 and 523) rather
than `employee_del_results`, contradicting the handler's own docstring
("employee_del_results へ処理結果コードを入れてリダイレクトする") and the
spec's route table. Evaluated at the failing input: `POST /employee-del/1`
against a table holding only the self-managed employee 1. -/
theorem del_execute_redirect_targets_add_results :
    (employee_del_execute false [⟨1, "A", 0, 1, 0, 0⟩] "1").1 =
      Redirect.addResults "deleted" ∧
    (employee_del_execute true [⟨1, "A", 0, 1, 0, 0⟩] "1").1 =
      Redirect.addResults "database-error" ∧
    Redirect.addResults "deleted" ≠ Redirect.delResults "deleted" ∧
    Redirect.addResults "database-error" ≠ Redirect.delResults "database-error" := by
  decide

/-- Claim C8 (confirmed). The three results renderers pass to their templates
exactly the message `RESULT_MESSAGES` maps the code to, falling back to the
generic `code error` for any string that is not a key; the map has 14
entries, its keys are distinct, and its messages are pairwise distinct
(a 1:1 mapping), identical across the three endpoints. -/
theorem results_renderers_lookup (code msg bogus : String) :
    (employee_add_results code).2 = resultLookup code ∧
    (employee_del_results code).2 = resultLookup code ∧
    (employee_edit_results code).2 = resultLookup code ∧
    RESULT_MESSAGES.length = 14 ∧
    (RESULT_MESSAGES.map Prod.fst).Nodup ∧
    (RESULT_MESSAGES.map Prod.snd).Nodup ∧
    ((code, msg) ∈ RESULT_MESSAGES → resultLookup code = msg) ∧
    (bogus ∉ RESULT_MESSAGES.map Prod.fst → resultLookup bogus = "code error") := by
  refine ⟨rfl, rfl, rfl, by decide, by decide, by decide, ?_, ?_⟩
  · intro h
    simp only [RESULT_MESSAGES, List.mem_cons, List.not_mem_nil, or_false,
      Prod.mk.injEq] at h
    rcases h with ⟨h1, h2⟩ | ⟨h1, h2⟩ | ⟨h1, h2⟩ | ⟨h1, h2⟩ | ⟨h1, h2⟩ |
      ⟨h1, h2⟩ | ⟨h1, h2⟩ | ⟨h1, h2⟩ | ⟨h1, h2⟩ | ⟨h1, h2⟩ | ⟨h1, h2⟩ |
      ⟨h1, h2⟩ | ⟨h1, h2⟩ | ⟨h1, h2⟩ <;> subst h1 <;> subst h2 <;> decide
  · intro h
    have hn : RESULT_MESSAGES.find? (fun p => p.1 == bogus) = none := by
      rw [List.find?_eq_none]
      intro x hx hbeq
      exact h (by
        rw [List.mem_map]
        exact ⟨x, hx, by simpa using hbeq⟩)
    simp [resultLookup, hn]

/-- Every run of the add handler either leaves the table untouched, or is the
fully validated success path appending exactly the parsed row. -/
lemma add_cases (d : Bool) (t : Table) (f : AddForm) :
    ∀ r t', employee_add_execute d t f = (r, t') →
      t' = t ∨
      (r = .addResults "added" ∧
        ∃ i m sa b st, pyInt f.id = some i ∧ containsId t i = false ∧
          pyInt f.manager_id = some m ∧ (i = m ∨ containsId t m = true) ∧
          pyInt f.salary = some sa ∧ pyInt f.birth_year = some b ∧
          pyInt f.start_year = some st ∧
          has_control_character f.name = false ∧ d = false ∧
          t' = t ++ [⟨i, f.name, sa, m, b, st⟩]) := by
  intro r t' h
  unfold employee_add_execute at h
  split at h
  · exact .inl (congrArg Prod.snd h).symm
  next i hid =>
    split at h
    · exact .inl (congrArg Prod.snd h).symm
    next hex =>
      split at h
      · exact .inl (congrArg Prod.snd h).symm
      next m hm =>
        split at h
        · exact .inl (congrArg Prod.snd h).symm
        next hmok =>
          split at h
          · exact .inl (congrArg Prod.snd h).symm
          next sa hsa =>
            split at h
            · exact .inl (congrArg Prod.snd h).symm
            next b hb =>
              split at h
              · exact .inl (congrArg Prod.snd h).symm
              next st hst =>
                split at h
                · exact .inl (congrArg Prod.snd h).symm
                next hname =>
                  split at h
                  · exact .inl (congrArg Prod.snd h).symm
                  next hd =>
                    refine .inr ⟨(congrArg Prod.fst h).symm,
                      i, m, sa, b, st, hid, by simpa using hex, hm, ?_,
                      hsa, hb, hst, by simpa using hname,
                      by simpa using hd, (congrArg Prod.snd h).symm⟩
                    simp only [Bool.and_eq_true, Bool.not_eq_true',
                      decide_eq_true_eq, not_and] at hmok
                    by_cases him : i = m
                    · exact .inl him
                    · exact .inr (by simpa using hmok him)

/-- Every run of the delete handler either leaves the table untouched, or is
the success path removing exactly the rows with the parsed id. -/
lemma del_cases (d : Bool) (t : Table) (s : String) :
    ∀ r t', employee_del_execute d t s = (r, t') →
      t' = t ∨
      (r = .addResults "deleted" ∧
        ∃ i, pyInt s = some i ∧ containsId t i = true ∧
          (∀ e ∈ t, e.manager_id = i → e.id = i) ∧ d = false ∧
          t' = t.filter (fun e => e.id != i)) := by
  intro r t' h
  unfold employee_del_execute at h
  split at h
  · exact .inl (congrArg Prod.snd h).symm
  next i hid =>
    split at h
    · exact .inl (congrArg Prod.snd h).symm
    next hex =>
      split at h
      · exact .inl (congrArg Prod.snd h).symm
      next hmgr =>
        split at h
        · exact .inl (congrArg Prod.snd h).symm
        next hd =>
          refine .inr ⟨(congrArg Prod.fst h).symm, i, hid,
            by simpa using hex, ?_, by simpa using hd,
            (congrArg Prod.snd h).symm⟩
          intro e he hm
          by_contra hne
          exact hmgr (List.any_eq_true.mpr ⟨e, he, by simp [hm, hne]⟩)

/-- Every run of the edit handler either leaves the table untouched, or is
the fully validated success path updating exactly the rows with the parsed
id. -/
lemma edit_cases (d : Bool) (t : Table) (s : String) (g : EditForm) :
    ∀ r t', employee_edit_update d t s g = (r, t') →
      t' = t ∨
      (r = .editResults "updated" ∧
        ∃ i m sa b st, pyInt s = some i ∧ containsId t i = true ∧
          pyInt g.manager_id = some m ∧ (i = m ∨ containsId t m = true) ∧
          pyInt g.salary = some sa ∧ pyInt g.birth_year = some b ∧
          pyInt g.start_year = some st ∧
          has_control_character g.name = false ∧ d = false ∧
          t' = t.map (fun e =>
            if e.id == i then
              { e with name := g.name, salary := sa, manager_id := m,
                       birth_year := b, start_year := st }
            else e)) := by
  intro r t' h
  unfold employee_edit_update at h
  split at h
  · exact .inl (congrArg Prod.snd h).symm
  next i hid =>
    split at h
    · exact .inl (congrArg Prod.snd h).symm
    next hex =>
      split at h
      · exact .inl (congrArg Prod.snd h).symm
      next m hm =>
        split at h
        · exact .inl (congrArg Prod.snd h).symm
        next hmok =>
          split at h
          · exact .inl (congrArg Prod.snd h).symm
          next sa hsa =>
            split at h
            · exact .inl (congrArg Prod.snd h).symm
            next b hb =>
              split at h
              · exact .inl (congrArg Prod.snd h).symm
              next st hst =>
                split at h
                · exact .inl (congrArg Prod.snd h).symm
                next hname =>
                  split at h
                  · exact .inl (congrArg Prod.snd h).symm
                  next hd =>
                    refine .inr ⟨(congrArg Prod.fst h).symm,
                      i, m, sa, b, st, hid, by simpa using hex, hm, ?_,
                      hsa, hb, hst, by simpa using hname,
                      by simpa using hd, (congrArg Prod.snd h).symm⟩
                    simp only [Bool.and_eq_true, Bool.not_eq_true',
                      decide_eq_true_eq, not_and] at hmok
                    by_cases him : i = m
                    · exact .inl him
                    · exact .inr (by simpa using hmok him)

/-- Claim C1 (confirmed). The add handler applies its checks in exactly the
documented order, the first failing check determining the result code:
id parses, id not already present, manager id parses, manager exists
(skipped when it equals the id), salary parses, birth year parses, start
year parses, name free of control characters; the insert is attempted
exactly when every check passes. -/
theorem add_validation_order (d : Bool) (t : Table) (f : AddForm) :
    (pyInt f.id = none →
      (employee_add_execute d t f).1 = .addResults "id-has-invalid-charactor") ∧
    (∀ i, pyInt f.id = some i → containsId t i = true →
      (employee_add_execute d t f).1 = .addResults "id-already-exists") ∧
    (∀ i, pyInt f.id = some i → containsId t i = false →
      pyInt f.manager_id = none →
      (employee_add_execute d t f).1 =
        .addResults "manager-id-has-invalid-charactor") ∧
    (∀ i m, pyInt f.id = some i → containsId t i = false →
      pyInt f.manager_id = some m → i ≠ m → containsId t m = false →
      (employee_add_execute d t f).1 =
        .addResults "manager-id-does-not-exist") ∧
    (∀ i m, pyInt f.id = some i → containsId t i = false →
      pyInt f.manager_id = some m → (i = m ∨ containsId t m = true) →
      pyInt f.salary = none →
      (employee_add_execute d t f).1 =
        .addResults "salary-has-invalid-charactor") ∧
    (∀ i m sa, pyInt f.id = some i → containsId t i = false →
      pyInt f.manager_id = some m → (i = m ∨ containsId t m = true) →
      pyInt f.salary = some sa → pyInt f.birth_year = none →
      (employee_add_execute d t f).1 =
        .addResults "birth-year-has-invalid-charactor") ∧
    (∀ i m sa b, pyInt f.id = some i → containsId t i = false →
      pyInt f.manager_id = some m → (i = m ∨ containsId t m = true) →
      pyInt f.salary = some sa → pyInt f.birth_year = some b →
      pyInt f.start_year = none →
      (employee_add_execute d t f).1 =
        .addResults "start-year-has-invalid-charactor") ∧
    (∀ i m sa b st, pyInt f.id = some i → containsId t i = false →
      pyInt f.manager_id = some m → (i = m ∨ containsId t m = true) →
      pyInt f.salary = some sa → pyInt f.birth_year = some b →
      pyInt f.start_year = some st → has_control_character f.name = true →
      (employee_add_execute d t f).1 =
        .addResults "name-has-control-charactor") ∧
    (∀ i m sa b st, pyInt f.id = some i → containsId t i = false →
      pyInt f.manager_id = some m → (i = m ∨ containsId t m = true) →
      pyInt f.salary = some sa → pyInt f.birth_year = some b →
      pyInt f.start_year = some st → has_control_character f.name = false →
      employee_add_execute d t f =
        (if d then (.addResults "database-error", t)
         else (.addResults "added", t ++ [⟨i, f.name, sa, m, b, st⟩]))) ∧
    ((employee_add_execute d t f).2 ≠ t →
      (employee_add_execute d t f).1 = .addResults "added") := by
  refine ⟨?_, ?_, ?_, ?_, ?_, ?_, ?_, ?_, ?_, ?_⟩
  · intro h; simp [employee_add_execute, h]
  · intro i h1 h2; simp [employee_add_execute, h1, h2]
  · intro i h1 h2 h3; simp [employee_add_execute, h1, h2, h3]
  · intro i m h1 h2 h3 h4 h5
    simp [employee_add_execute, h1, h2, h3, h4, h5]
  · intro i m h1 h2 h3 h4 h5
    rcases h4 with rfl | hc
    · simp [employee_add_execute, h1, h2, h3, h5]
    · simp [employee_add_execute, h1, h2, h3, h5, hc]
  · intro i m sa h1 h2 h3 h4 h5 h6
    rcases h4 with rfl | hc
    · simp [employee_add_execute, h1, h2, h3, h5, h6]
    · simp [employee_add_execute, h1, h2, h3, h5, h6, hc]
  · intro i m sa b h1 h2 h3 h4 h5 h6 h7
    rcases h4 with rfl | hc
    · simp [employee_add_execute, h1, h2, h3, h5, h6, h7]
    · simp [employee_add_execute, h1, h2, h3, h5, h6, h7, hc]
  · intro i m sa b st h1 h2 h3 h4 h5 h6 h7 h8
    rcases h4 with rfl | hc
    · simp [employee_add_execute, h1, h2, h3, h5, h6, h7, h8]
    · simp [employee_add_execute, h1, h2, h3, h5, h6, h7, h8, hc]
  · intro i m sa b st h1 h2 h3 h4 h5 h6 h7 h8
    rcases h4 with rfl | hc
    · simp [employee_add_execute, h1, h2, h3, h5, h6, h7, h8]
    · simp [employee_add_execute, h1, h2, h3, h5, h6, h7, h8, hc]
  · intro h
    by_contra hne
    rcases add_cases d t f (employee_add_execute d t f).1
        (employee_add_execute d t f).2 rfl with h2 | ⟨h2, _⟩
    · exact h h2
    · exact hne h2

/-- Witness for `add_validation_order`: a request whose manager id and name
are both invalid is reported with the manager-id code, the earlier check. -/
theorem add_validation_order_witness :
    (employee_add_execute false []
      ⟨"5", String.mk ['A', Char.ofNat 7], "1", "x", "1", "1"⟩).1 =
      Redirect.addResults "manager-id-has-invalid-charactor" :=
  (add_validation_order false []
      ⟨"5", String.mk ['A', Char.ofNat 7], "1", "x", "1", "1"⟩).2.2.1 5
    (by decide) (by decide) (by decide)

/-- Claim C2 (confirmed). Any Add, Edit or Delete request that does not return
its success code leaves the table exactly as it was; consequently repeating
the same failing Add payload gives the same outcome both times. -/
theorem failed_request_leaves_table (d : Bool) (t : Table) (f : AddForm)
    (g : EditForm) (ids idd : String) :
    ((employee_add_execute d t f).1.code ≠ "added" →
      (employee_add_execute d t f).2 = t ∧
      employee_add_execute d (employee_add_execute d t f).2 f =
        employee_add_execute d t f) ∧
    ((employee_edit_update d t ids g).1.code ≠ "updated" →
      (employee_edit_update d t ids g).2 = t) ∧
    ((employee_del_execute d t idd).1.code ≠ "deleted" →
      (employee_del_execute d t idd).2 = t) := by
  refine ⟨?_, ?_, ?_⟩
  · intro h
    rcases add_cases d t f (employee_add_execute d t f).1
        (employee_add_execute d t f).2 rfl with h2 | ⟨h2, _⟩
    · exact ⟨h2, by rw [h2]⟩
    · exact absurd (by rw [h2]; rfl) h
  · intro h
    rcases edit_cases d t ids g (employee_edit_update d t ids g).1
        (employee_edit_update d t ids g).2 rfl with h2 | ⟨h2, _⟩
    · exact h2
    · exact absurd (by rw [h2]; rfl) h
  · intro h
    rcases del_cases d t idd (employee_del_execute d t idd).1
        (employee_del_execute d t idd).2 rfl with h2 | ⟨h2, _⟩
    · exact h2
    · exact absurd (by rw [h2]; rfl) h

/-- Witness for `failed_request_leaves_table`: a duplicate-id Add against a
one-row table fails and leaves the row alone, twice over. -/
theorem failed_request_leaves_table_witness :
    (employee_add_execute false [⟨1, "A", 0, 1, 0, 0⟩]
        ⟨"1", "B", "1", "1", "1", "1"⟩).2 = [⟨1, "A", 0, 1, 0, 0⟩] ∧
    employee_add_execute false
        (employee_add_execute false [⟨1, "A", 0, 1, 0, 0⟩]
          ⟨"1", "B", "1", "1", "1", "1"⟩).2
        ⟨"1", "B", "1", "1", "1", "1"⟩ =
      employee_add_execute false [⟨1, "A", 0, 1, 0, 0⟩]
        ⟨"1", "B", "1", "1", "1", "1"⟩ :=
  (failed_request_leaves_table false [⟨1, "A", 0, 1, 0, 0⟩]
      ⟨"1", "B", "1", "1", "1", "1"⟩ ⟨"B", "1", "1", "1", "1"⟩ "1" "1").1
    (by decide)

/-- Claim C5 (confirmed). For a Delete of an existing id, the request fails
with `id-is-manager` and the table keeps the row exactly when some other
record lists that id as its manager; an id referenced by no other record
(in particular one that is only its own manager) is deleted when the
storage engine does not fail. -/
theorem del_manager_guard (d : Bool) (t : Table) (s : String) (i : Int)
    (hp : pyInt s = some i) (hex : containsId t i = true) :
    (((employee_del_execute d t s).1.code = "id-is-manager" ∧
        (employee_del_execute d t s).2 = t) ↔
      ∃ e ∈ t, e.manager_id = i ∧ e.id ≠ i) ∧
    ((∀ e ∈ t, ¬(e.manager_id = i ∧ e.id ≠ i)) → d = false →
      (employee_del_execute d t s).1.code = "deleted" ∧
      (employee_del_execute d t s).2 = t.filter (fun e => e.id != i) ∧
      containsId (employee_del_execute d t s).2 i = false) := by
  by_cases hm : t.any (fun e => e.manager_id == i && e.id != i) = true
  · have heval : employee_del_execute d t s = (.delResults "id-is-manager", t) := by
      simp [employee_del_execute, hp, hex, hm]
    obtain ⟨e, he, hprop⟩ := List.any_eq_true.mp hm
    simp only [Bool.and_eq_true, beq_iff_eq, bne_iff_ne] at hprop
    refine ⟨?_, ?_⟩
    · rw [heval]
      exact ⟨fun _ => ⟨e, he, hprop⟩, fun _ => ⟨rfl, rfl⟩⟩
    · intro hall _
      exact absurd hprop (hall e he)
  · have heval : employee_del_execute d t s =
        (if d then (.addResults "database-error", t)
         else (.addResults "deleted", t.filter (fun e => e.id != i))) := by
      simp [employee_del_execute, hp, hex, hm]
    refine ⟨?_, ?_⟩
    · rw [heval]
      constructor
      · rintro ⟨hc, -⟩
        cases d
        · simp [Redirect.code] at hc
        · simp [Redirect.code] at hc
      · rintro ⟨e, he, h1, h2⟩
        exact absurd (List.any_eq_true.mpr ⟨e, he, by simp [h1, h2]⟩) hm
    · intro hall hd
      subst hd
      rw [heval]
      refine ⟨rfl, rfl, ?_⟩
      simp only [containsId, if_false, Bool.false_eq_true]
      rw [List.any_eq_false]
      intro e he
      rw [List.mem_filter] at he
      simpa using he.2

/-- Witness for `del_manager_guard`: deleting employee 1, whose id is the
manager id of employee 2, fails with `id-is-manager` and keeps the table. -/
theorem del_manager_guard_witness :
    (employee_del_execute false
        [⟨1, "A", 0, 1, 0, 0⟩, ⟨2, "B", 0, 1, 0, 0⟩] "1").1.code =
      "id-is-manager" ∧
    (employee_del_execute false
        [⟨1, "A", 0, 1, 0, 0⟩, ⟨2, "B", 0, 1, 0, 0⟩] "1").2 =
      [⟨1, "A", 0, 1, 0, 0⟩, ⟨2, "B", 0, 1, 0, 0⟩] :=
  (del_manager_guard false [⟨1, "A", 0, 1, 0, 0⟩, ⟨2, "B", 0, 1, 0, 0⟩]
      "1" 1 (by decide) (by decide)).1.mpr
    ⟨⟨2, "B", 0, 1, 0, 0⟩, by decide, by decide, by decide⟩

/-- Witness for `results_renderers_lookup`: a mapped code renders its
message and an unknown code renders the generic one. -/
theorem results_renderers_lookup_witness :
    resultLookup "updated" = "更新しました" ∧
    resultLookup "bogus" = "code error" :=
  ⟨(results_renderers_lookup "updated" "更新しました" "bogus").2.2.2.2.2.2.1
      (by decide),
   (results_renderers_lookup "updated" "更新しました" "bogus").2.2.2.2.2.2.2
      (by decide)⟩

/-- Claim C6, counterexample to the claim as stated. In the Add request below
the manager id parses to 2, differs from the id 1, and no record with id 2
exists, yet the result code is `id-already-exists`, not
`manager-id-does-not-exist`: the earlier duplicate-id check fires first. -/
theorem manager_check_counterexample :
    pyInt "1" = some 1 ∧ pyInt "2" = some 2 ∧ (1 : Int) ≠ 2 ∧
    containsId [⟨1, "A", 0, 1, 0, 0⟩] 2 = false ∧
    (employee_add_execute false [⟨1, "A", 0, 1, 0, 0⟩]
        ⟨"1", "B", "0", "2", "0", "0"⟩).1 =
      Redirect.addResults "id-already-exists" ∧
    Redirect.addResults "id-already-exists" ≠
      Redirect.addResults "manager-id-does-not-exist" := by
  decide

/-- Claim C6 (corrected). A self-referencing manager id never yields
`manager-id-does-not-exist`, whatever the table holds; and when the checks
before the manager-existence check pass (for Add: the id parses and is not
already present; for Edit: the id parses and exists), a manager id that
parses, differs from the id and matches no record yields exactly
`manager-id-does-not-exist`. -/
theorem manager_self_reference_and_absence (d : Bool) (t : Table)
    (f : AddForm) (g : EditForm) (s : String) (i m : Int) :
    (pyInt f.id = some i → pyInt f.manager_id = some i →
      (employee_add_execute d t f).1 ≠
        Redirect.addResults "manager-id-does-not-exist") ∧
    (pyInt s = some i → pyInt g.manager_id = some i →
      (employee_edit_update d t s g).1 ≠
        Redirect.editResults "manager-id-does-not-exist") ∧
    (pyInt f.id = some i → containsId t i = false →
      pyInt f.manager_id = some m → m ≠ i → containsId t m = false →
      (employee_add_execute d t f).1 =
        Redirect.addResults "manager-id-does-not-exist") ∧
    (pyInt s = some i → containsId t i = true →
      pyInt g.manager_id = some m → m ≠ i → containsId t m = false →
      (employee_edit_update d t s g).1 =
        Redirect.editResults "manager-id-does-not-exist") := by
  refine ⟨?_, ?_, ?_, ?_⟩
  · intro h1 h2
    unfold employee_add_execute
    rw [h1, h2]
    repeat' split
    all_goals simp_all
  · intro h1 h2
    unfold employee_edit_update
    rw [h1, h2]
    repeat' split
    all_goals simp_all
  · intro h1 h2 h3 h4 h5
    have h4' : i ≠ m := fun h => h4 h.symm
    simp [employee_add_execute, h1, h2, h3, h5, h4']
  · intro h1 h2 h3 h4 h5
    have h4' : i ≠ m := fun h => h4 h.symm
    simp [employee_edit_update, h1, h2, h3, h5, h4']

/-- Witness for `manager_self_reference_and_absence`: adding employee 7 as
its own manager to the empty table succeeds, and adding employee 7 with the
absent manager 8 fails with `manager-id-does-not-exist`. -/
theorem manager_self_reference_witness :
    (employee_add_execute false [] ⟨"7", "A", "0", "7", "0", "0"⟩).1 ≠
      Redirect.addResults "manager-id-does-not-exist" ∧
    (employee_add_execute false [] ⟨"7", "A", "0", "8", "0", "0"⟩).1 =
      Redirect.addResults "manager-id-does-not-exist" :=
  ⟨(manager_self_reference_and_absence false [] ⟨"7", "A", "0", "7", "0", "0"⟩
      ⟨"A", "0", "7", "0", "0"⟩ "7" 7 7).1 (by decide) (by decide),
   (manager_self_reference_and_absence false [] ⟨"7", "A", "0", "8", "0", "0"⟩
      ⟨"A", "0", "8", "0", "0"⟩ "7" 7 8).2.2.1 (by decide) (by decide)
      (by decide) (by decide) (by decide)⟩

/-- Claim C7 (confirmed). `has_control_character` — the name check shared by
the Add and Edit handlers — holds of a string exactly when the string
contains a character of Unicode general category `Cc`; every string made of
non-`Cc` characters (including non-ASCII printable ones) passes.  In a
request whose earlier checks pass, the result code is
`name-has-control-charactor` exactly when the submitted name contains such
a character. -/
theorem name_control_character_rule (s : String) (d : Bool) (t : Table)
    (f : AddForm) (g : EditForm) (us : String) (i m sa b st : Int) :
    (has_control_character s = true ↔ ∃ c ∈ s.data, isCc c = true) ∧
    (pyInt f.id = some i → containsId t i = false →
      pyInt f.manager_id = some m → (i = m ∨ containsId t m = true) →
      pyInt f.salary = some sa → pyInt f.birth_year = some b →
      pyInt f.start_year = some st →
      ((employee_add_execute d t f).1 =
          Redirect.addResults "name-has-control-charactor" ↔
        has_control_character f.name = true)) ∧
    (pyInt us = some i → containsId t i = true →
      pyInt g.manager_id = some m → (i = m ∨ containsId t m = true) →
      pyInt g.salary = some sa → pyInt g.birth_year = some b →
      pyInt g.start_year = some st →
      ((employee_edit_update d t us g).1 =
          Redirect.editResults "name-has-control-charactor" ↔
        has_control_character g.name = true)) := by
  refine ⟨?_, ?_, ?_⟩
  · simp [has_control_character, List.any_eq_true]
  · intro h1 h2 h3 h4 h5 h6 h7
    rcases h4 with rfl | hc
    · by_cases hn : has_control_character f.name = true
      · simp [employee_add_execute, h1, h2, h3, h5, h6, h7, hn]
      · simp only [Bool.not_eq_true] at hn
        cases d <;> simp [employee_add_execute, h1, h2, h3, h5, h6, h7, hn]
    · by_cases hn : has_control_character f.name = true
      · simp [employee_add_execute, h1, h2, h3, h5, h6, h7, hn, hc]
      · simp only [Bool.not_eq_true] at hn
        cases d <;> simp [employee_add_execute, h1, h2, h3, h5, h6, h7, hn, hc]
  · intro h1 h2 h3 h4 h5 h6 h7
    rcases h4 with rfl | hc
    · by_cases hn : has_control_character g.name = true
      · simp [employee_edit_update, h1, h2, h3, h5, h6, h7, hn]
      · simp only [Bool.not_eq_true] at hn
        cases d <;> simp [employee_edit_update, h1, h2, h3, h5, h6, h7, hn]
    · by_cases hn : has_control_character g.name = true
      · simp [employee_edit_update, h1, h2, h3, h5, h6, h7, hn, hc]
      · simp only [Bool.not_eq_true] at hn
        cases d <;> simp [employee_edit_update, h1, h2, h3, h5, h6, h7, hn, hc]

/-- Witness for `name_control_character_rule`: a name containing the tab
character U+0009 (category `Cc`) is rejected with the control-character
code by an Add whose other fields are valid. -/
theorem name_control_character_rule_witness :
    (employee_add_execute false []
        ⟨"3", String.mk ['B', Char.ofNat 9], "1", "3", "1", "1"⟩).1 =
      Redirect.addResults "name-has-control-charactor" :=
  ((name_control_character_rule "x" false []
      ⟨"3", String.mk ['B', Char.ofNat 9], "1", "3", "1", "1"⟩
      ⟨"B", "1", "3", "1", "1"⟩ "3" 3 3 1 1 1).2.1
    (by decide) (by decide) (by decide) (Or.inl rfl)
    (by decide) (by decide) (by decide)).mpr (by decide)

/-- Restating `containsId` as a membership statement. -/
lemma containsId_iff (t : Table) (i : Int) :
    containsId t i = true ↔ ∃ e ∈ t, e.id = i := by
  simp [containsId, List.any_eq_true]

/-- Computing `containsId` over an appended row. -/
lemma containsId_append (t : Table) (r : Employee) (i : Int) :
    containsId (t ++ [r]) i = (containsId t i || (r.id == i)) := by
  simp [containsId, List.any_append]

/-- A run of the add handler preserves the table invariants. -/
lemma add_preserves_valid (d : Bool) (t : Table) (f : AddForm)
    (hv : validTable t) : validTable (employee_add_execute d t f).2 := by
  rcases add_cases d t f (employee_add_execute d t f).1
      (employee_add_execute d t f).2 rfl with
    h | ⟨-, i, m, sa, b, st, hid, hex, hm, hmok, -, -, -, hname, -, ht'⟩
  · rw [h]; exact hv
  · rw [ht']
    obtain ⟨hnd, href, hnm⟩ := hv
    refine ⟨?_, ?_, ?_⟩
    · rw [List.map_append, List.nodup_append]
      refine ⟨hnd, List.nodup_singleton _, ?_⟩
      simp only [List.map_cons, List.map_nil]
      rw [List.disjoint_singleton]
      intro hmem
      rw [List.mem_map] at hmem
      obtain ⟨e, he, hei⟩ := hmem
      have : containsId t i = true := (containsId_iff t i).mpr ⟨e, he, hei⟩
      rw [hex] at this
      exact Bool.false_ne_true this
    · intro e he
      rw [List.mem_append] at he
      rcases he with he | he
      · rcases href e he with h | h
        · exact .inl h
        · refine .inr ?_
          rw [containsId_append, h]
          rfl
      · rw [List.mem_singleton] at he
        subst he
        rcases hmok with rfl | hc
        · exact .inl rfl
        · refine .inr ?_
          rw [containsId_append, hc]
          rfl
    · intro e he
      rw [List.mem_append] at he
      rcases he with he | he
      · exact hnm e he
      · rw [List.mem_singleton] at he
        subst he
        exact hname

/-- A run of the delete handler preserves the table invariants. -/
lemma del_preserves_valid (d : Bool) (t : Table) (s : String)
    (hv : validTable t) : validTable (employee_del_execute d t s).2 := by
  rcases del_cases d t s (employee_del_execute d t s).1
      (employee_del_execute d t s).2 rfl with
    h | ⟨-, i, hid, hex, hsub, -, ht'⟩
  · rw [h]; exact hv
  · rw [ht']
    obtain ⟨hnd, href, hnm⟩ := hv
    refine ⟨?_, ?_, ?_⟩
    · exact ((List.filter_sublist t).map Employee.id).nodup hnd
    · intro e he
      rw [List.mem_filter] at he
      obtain ⟨het, hne⟩ := he
      rcases href e het with h | h
      · exact .inl h
      · refine .inr ?_
        rw [containsId_iff] at h ⊢
        obtain ⟨w, hw, hwid⟩ := h
        have hwi : w.id ≠ i := by
          intro hwi
          have hem : e.manager_id = i := by rw [← hwid, hwi]
          have : e.id ≠ i := by simpa using hne
          exact this (hsub e het hem)
        refine ⟨w, ?_, hwid⟩
        rw [List.mem_filter]
        exact ⟨hw, by simpa using hwi⟩
    · intro e he
      rw [List.mem_filter] at he
      exact hnm e he.1

/-- A run of the edit handler preserves the table invariants. -/
lemma edit_preserves_valid (d : Bool) (t : Table) (s : String) (g : EditForm)
    (hv : validTable t) : validTable (employee_edit_update d t s g).2 := by
  rcases edit_cases d t s g (employee_edit_update d t s g).1
      (employee_edit_update d t s g).2 rfl with
    h | ⟨-, i, m, sa, b, st, hid, hex, hm, hmok, -, -, -, hname, -, ht'⟩
  · rw [h]; exact hv
  · rw [ht']
    obtain ⟨hnd, href, hnm⟩ := hv
    set upd := fun e : Employee =>
      if e.id == i then
        { e with name := g.name, salary := sa, manager_id := m,
                 birth_year := b, start_year := st }
      else e with hupd
    have hupd_id : ∀ e : Employee, (upd e).id = e.id := by
      intro e
      by_cases h : e.id = i <;> simp [hupd, h]
    have hcont : ∀ x, containsId (t.map upd) x = true ↔ containsId t x = true := by
      intro x
      rw [containsId_iff, containsId_iff]
      constructor
      · rintro ⟨e, he, hid'⟩
        rw [List.mem_map] at he
        obtain ⟨a, ha, rfl⟩ := he
        exact ⟨a, ha, by rw [← hupd_id a]; exact hid'⟩
      · rintro ⟨e, he, hid'⟩
        exact ⟨upd e, List.mem_map_of_mem upd he, by rw [hupd_id]; exact hid'⟩
    refine ⟨?_, ?_, ?_⟩
    · rw [List.map_map]
      have hcomp : Employee.id ∘ upd = Employee.id := funext hupd_id
      rw [hcomp]
      exact hnd
    · intro e' he'
      rw [List.mem_map] at he'
      obtain ⟨a, ha, rfl⟩ := he'
      by_cases hai : a.id = i
      · rcases hmok with rfl | hc
        · refine .inl ?_
          simp [hupd, hai]
        · refine .inr ?_
          have : (upd a).manager_id = m := by simp [hupd, hai]
          rw [this]
          exact (hcont m).mpr hc
      · have hae : upd a = a := by simp [hupd, hai]
        rw [hae]
        rcases href a ha with h | h
        · exact .inl h
        · exact .inr ((hcont a.manager_id).mpr h)
    · intro e' he'
      rw [List.mem_map] at he'
      obtain ⟨a, ha, rfl⟩ := he'
      by_cases hai : a.id = i
      · have : (upd a).name = g.name := by simp [hupd, hai]
        rw [this]
        exact hname
      · have hae : upd a = a := by simp [hupd, hai]
        rw [hae]
        exact hnm a ha

/-- Claim C3 (confirmed). Starting from any table satisfying the invariants,
any sequence of Add, Edit and Delete requests — successful or failed —
leaves a table in which ids are unique, every manager id is the record's
own id or the id of an existing record, and no name contains a control
character. -/
theorem reachable_tables_valid (t : Table) (ops : List Op)
    (hv : validTable t) : validTable (runOps t ops) := by
  induction ops generalizing t with
  | nil => exact hv
  | cons op rest ih =>
    have hstep : validTable (applyOp t op).2 := by
      cases op with
      | add d f => exact add_preserves_valid d t f hv
      | edit d s g => exact edit_preserves_valid d t s g hv
      | del d s => exact del_preserves_valid d t s hv
    exact ih _ hstep

/-- Witness for `reachable_tables_valid`: the table built by adding
employees 1 and 2 (2 managed by 1) satisfies all invariants. -/
theorem reachable_tables_valid_witness :
    validTable (runOps []
      [Op.add false ⟨"1", "Alice", "50000", "1", "1990", "2015"⟩,
       Op.add false ⟨"2", "Bob", "40000", "1", "1995", "2020"⟩]) :=
  reachable_tables_valid []
    [Op.add false ⟨"1", "Alice", "50000", "1", "1990", "2015"⟩,
     Op.add false ⟨"2", "Bob", "40000", "1", "1995", "2020"⟩] (by decide)

/-- A predicate holding of the empty list holds of some suffix of any list. -/
lemma anySuffix_of_nil (g : List Char → Bool) (h : g [] = true) :
    ∀ s, anySuffix g s = true
  | [] => by simp [anySuffix, h]
  | c :: cs => by simp [anySuffix, anySuffix_of_nil g h cs]

/-- The pattern `%` matches every string. -/
lemma likeMatch_percent_all (s : List Char) : likeMatch ['%'] s = true := by
  have h0 : likeMatch ([] : List Char) [] = true := rfl
  simpa [likeMatch] using anySuffix_of_nil (likeMatch []) h0 s

/-- A pattern without wildcards matches exactly the strings equal to it up
to ASCII letter case. -/
lemma likeMatch_no_wildcard : ∀ (p s : List Char),
    (∀ c ∈ p, c ≠ '%' ∧ c ≠ '_') →
    (likeMatch p s = true ↔ p.map asciiLower = s.map asciiLower)
  | [], s, _ => by cases s <;> simp [likeMatch]
  | c :: ps, s, h => by
    have hc := h c (List.mem_cons_self c ps)
    cases s with
    | nil => simp [likeMatch, hc.1]
    | cons a as =>
      have ih := likeMatch_no_wildcard ps as
        (fun x hx => h x (List.mem_cons_of_mem c hx))
      simp [likeMatch, hc.1, hc.2, Bool.and_eq_true, ih]

/-- Claim C10, counterexample to the claim as stated. The filter `alice`
contains no wildcard character, yet the filtered listing over a table whose
only employee is named `Alice` returns that employee even though
`Alice ≠ alice`: SQLite's `LIKE` is case-insensitive for ASCII letters, so
a wildcard-free filter is not an exact-equality filter. -/
theorem filtered_list_exact_match_counterexample :
    (∀ c ∈ "alice".data, c ≠ '%' ∧ c ≠ '_') ∧
    employees_filtered [⟨1, "Alice", 0, 1, 0, 0⟩] "alice" =
      [((1 : Int), "Alice")] ∧
    "Alice" ≠ "alice" := by
  decide

/-- Claim C10 (corrected). The filtered listing passes `name_filter` verbatim
as a SQL `LIKE` pattern: `%` returns every employee, `_` consumes exactly
one character, a filter without wildcard characters matches exactly the
employees whose name equals it up to ASCII letter case (SQLite's `LIKE` is
ASCII-case-insensitive), and the empty filter returns exactly the employees
with an empty name. -/
theorem filtered_list_like_semantics (t : Table) (pat : String)
    (c : Char) (cs ps : List Char) :
    employees_filtered t "%" = t.map (fun e => (e.id, e.name)) ∧
    (likeMatch ('_' :: ps) (c :: cs) = likeMatch ps cs ∧
     likeMatch ('_' :: ps) [] = false) ∧
    ((∀ ch ∈ pat.data, ch ≠ '%' ∧ ch ≠ '_') →
      employees_filtered t pat =
        (t.filter (fun e =>
          decide (pat.data.map asciiLower = e.name.data.map asciiLower))).map
          (fun e => (e.id, e.name))) ∧
    employees_filtered t "" =
      (t.filter (fun e => decide (e.name = ""))).map
        (fun e => (e.id, e.name)) := by
  refine ⟨?_, ⟨rfl, rfl⟩, ?_, ?_⟩
  · unfold employees_filtered
    rw [List.filter_eq_self.mpr]
    intro e _
    exact likeMatch_percent_all e.name.data
  · intro hnw
    unfold employees_filtered
    congr 1
    apply List.filter_congr
    intro e _
    rw [Bool.eq_iff_iff]
    simp only [sqlLike, decide_eq_true_eq]
    exact likeMatch_no_wildcard pat.data e.name.data hnw
  · unfold employees_filtered
    congr 1
    apply List.filter_congr
    intro e _
    rw [Bool.eq_iff_iff]
    simp only [sqlLike, decide_eq_true_eq]
    have h0 : likeMatch ([] : List Char) e.name.data = e.name.data.isEmpty := rfl
    rw [h0, String.ext_iff]
    simp [List.isEmpty_iff]

/-- Witness for `filtered_list_like_semantics`: the wildcard-free filter
`alice` selects exactly the employees named `Alice` up to ASCII case. -/
theorem filtered_list_like_semantics_witness :
    employees_filtered [⟨1, "Alice", 0, 1, 0, 0⟩, ⟨2, "Bob", 0, 1, 0, 0⟩]
      "alice" = [((1 : Int), "Alice")] := by
  have h := (filtered_list_like_semantics
      [⟨1, "Alice", 0, 1, 0, 0⟩, ⟨2, "Bob", 0, 1, 0, 0⟩]
      "alice" 'x' [] []).2.2.1 (by decide)
  simpa using h
